import Mathlib

/-!
Shallow embedding of the lexical scanner of `src/tokenizer.rs` (lox-rs).

The Rust scanner processes its source as raw bytes, each byte reinterpreted
as the character with that code point (`bytes[i] as char`).  We therefore
model the source as a list of bytes (`Fin 256`) and tabulate, on the code
points below 256, the Rust `char` classification methods the scanner uses.

The `while` loops of the source are modelled with an explicit fuel argument
so that every definition is a structurally recursive, kernel-evaluable
function; the fuel passed at the call sites is sufficient because the
cursor strictly increases (proved below), and fuel independence beyond the
bound is also proved below.
-/

set_option maxRecDepth 8000

namespace Lox

/-- One byte of the source buffer (Rust `u8`). -/
abbrev Byte := Fin 256

/-- Reinterpret a byte as the character with that code point (`bytes[i] as char`). -/
def byteChar (b : Byte) : Char := Char.ofNat b.val

/-- Rust `char::is_whitespace` (Unicode `White_Space`), tabulated on code points
below 256 — the only characters the scanner ever forms from single bytes. -/
def char_is_whitespace (c : Char) : Bool :=
  decide (c.toNat = 9 ∨ c.toNat = 10 ∨ c.toNat = 11 ∨ c.toNat = 12 ∨ c.toNat = 13 ∨
    c.toNat = 32 ∨ c.toNat = 133 ∨ c.toNat = 160)

/-- Rust `char::is_numeric` (Unicode `Number`), tabulated on code points below 256:
the ASCII digits together with ¹ ² ³ ¼ ½ ¾ (0xB9, 0xB2, 0xB3, 0xBC, 0xBD, 0xBE). -/
def char_is_numeric (c : Char) : Bool :=
  decide ((48 ≤ c.toNat ∧ c.toNat ≤ 57) ∨ c.toNat = 178 ∨ c.toNat = 179 ∨
    c.toNat = 185 ∨ c.toNat = 188 ∨ c.toNat = 189 ∨ c.toNat = 190)

/-- Rust `char::is_alphabetic` (Unicode `Alphabetic`), tabulated on code points
below 256: ASCII letters, ª µ º, and the Latin-1 letters (excluding × and ÷). -/
def char_is_alphabetic (c : Char) : Bool :=
  decide ((65 ≤ c.toNat ∧ c.toNat ≤ 90) ∨ (97 ≤ c.toNat ∧ c.toNat ≤ 122) ∨
    c.toNat = 170 ∨ c.toNat = 181 ∨ c.toNat = 186 ∨
    (192 ≤ c.toNat ∧ c.toNat ≤ 214) ∨ (216 ≤ c.toNat ∧ c.toNat ≤ 246) ∨
    (248 ≤ c.toNat ∧ c.toNat ≤ 255))

/-- Rust `char::is_alphanumeric` = `is_alphabetic || is_numeric`. -/
def char_is_alphanumeric (c : Char) : Bool :=
  char_is_alphabetic c || char_is_numeric c

/-- The `Token` enum of `src/tokenizer.rs` (including its `GreatEqual` spelling).
The source stores the parsed `f64` in `Number`; here the exact decimal value is
carried as a rational — the scanner never computes with the value, and distinct
lexemes that denote the same decimal value compare equal in both models. -/
inductive Token where
  | LeftParen | RightParen | LeftBrace | RightBrace
  | Comma | Dot | Minus | Plus | Semicolon | Slash | Star
  | Bang | BangEqual
  | Equal | EqualEqual
  | Greater | GreatEqual
  | Less | LessEqual
  | Identifier (s : String)
  | String (s : String)
  | Number (n : Rat)
  | And | Class | Else | False | Fun | For | If | Nil | Or
  | Print | Return | Super | This | True | Var | While
  | Eof
deriving DecidableEq

/-- The operator characters (`static OPERATORS: &str = "!=><";`). -/
def OPERATORS : List Char := ['!', '=', '>', '<']

/-- The keyword `match` of `tokenize` (lines 142–160 of `src/tokenizer.rs`). -/
def keyword_token (iden : String) : Token :=
  match iden with
  | "and" => .And
  | "class" => .Class
  | "else" => .Else
  | "false" => .False
  | "fun" => .Fun
  | "for" => .For
  | "if" => .If
  | "nil" => .Nil
  | "or" => .Or
  | "print" => .Print
  | "return" => .Return
  | "super" => .Super
  | "this" => .This
  | "true" => .True
  | "var" => .Var
  | "while" => .While
  | _ => .Identifier iden

/-- The mutable locals of `tokenize` (besides the cursor `self.offset`):
`self.tokens`, `errors`, `reading_string`, `reading_number`,
`reading_identifier`, `read_start_offset`, `escape_next`, `string_buf`. -/
structure ScanState where
  tokens : List Token
  errors : List String
  reading_string : Bool
  reading_number : Bool
  reading_identifier : Bool
  read_start_offset : Nat
  escape_next : Bool
  string_buf : List Char
deriving DecidableEq

/-- Value of a list of ASCII digits read as a decimal numeral. -/
def digitsVal (s : List Char) : Nat :=
  s.foldl (fun a c => a * 10 + (c.toNat - 48)) 0

/-- Models `num_string.parse::<f64>()` from the Rust standard library,
restricted to the strings that can accumulate in a number lexeme (characters
satisfying `char_is_numeric`, plus dots): the parse succeeds exactly when the
string contains at least one ASCII digit, every character is an ASCII digit or
a dot, and there is at most one dot; the value is the exact decimal value. -/
def parse_f64 (s : List Char) : Option Rat :=
  let intPart := s.takeWhile (fun c => c != '.')
  let fracPart := (s.dropWhile (fun c => c != '.')).drop 1
  if (s.any fun c => c.isDigit) = true ∧
      (s.all fun c => c.isDigit || c == '.') = true ∧ s.count '.' ≤ 1 then
    some (mkRat (digitsVal intPart * 10 ^ fracPart.length + digitsVal fracPart)
      (10 ^ fracPart.length))
  else none

/-- The `while` loop of `get_2d_location`: walk `fuel` characters starting at
`current_offset`, counting lines and columns.  On a newline the code sets
`column = 1` and then still runs the unconditional `column += 1`. -/
def locWalk (src : List Byte) : Nat → Nat → Nat → Nat → Nat × Nat
  | 0, _, line, column => (line, column)
  | fuel + 1, current_offset, line, column =>
    if byteChar (src.getD current_offset 0) = '\n' then
      locWalk src fuel (current_offset + 1) (line + 1) 2
    else
      locWalk src fuel (current_offset + 1) line (column + 1)

/-- Location resolution (`Tokenizer::get_2d_location`): re-walk the buffer from
the start up to (excluding) `offset`. -/
def get_2d_location (src : List Byte) (offset : Nat) : Nat × Nat :=
  locWalk src offset 0 1 1

/-- A single-quote character, used by the source's diagnostic messages. -/
def sq : String := String.mk [Char.ofNat 39]

/-- Diagnostic formatting (`Tokenizer::generate_report`). -/
def generate_report (src : List Byte) (message : String) (offset : Nat) : String :=
  "[" ++ toString (get_2d_location src offset).1 ++ ":" ++
    toString (get_2d_location src offset).2 ++ "] Error: " ++ message

/-- The comment-skipping `while` loop (line 222), fueled. -/
def skipGo (src : List Byte) : Nat → Nat → Nat
  | 0, o => o
  | fuel + 1, o =>
    if o < src.length ∧ byteChar (src.getD o 0) ≠ '\n' then skipGo src fuel (o + 1)
    else o

/-- Advance the cursor to the next newline or to the end of the buffer. -/
def skipToNewline (src : List Byte) (o : Nat) : Nat :=
  skipGo src (src.length - o) o

/-- Closing a number lexeme (lines 117–127): parse the accumulated text; emit a
`Number` token on success, record an "Invalid number" diagnostic anchored at
the lexeme's start offset on failure.  `string_buf` is drained (`mem::take`). -/
def close_number (src : List Byte) (st : ScanState) : ScanState :=
  match parse_f64 st.string_buf with
  | some num =>
    { st with
      reading_number := false
      string_buf := []
      tokens := st.tokens ++ [Token.Number num] }
  | none =>
    { st with
      reading_number := false
      string_buf := []
      errors := st.errors ++
        [generate_report src ("Invalid number " ++ sq ++ String.mk st.string_buf ++ sq)
          st.read_start_offset] }

/-- Closing an identifier lexeme (lines 136–160): look the accumulated text up
in the keyword table and push the resulting token. -/
def close_identifier (st : ScanState) : ScanState :=
  { st with
    reading_identifier := false
    string_buf := []
    tokens := st.tokens ++ [keyword_token (String.mk st.string_buf)] }

/-- The two-character operator arms (lines 203–206); `none` is the
`unreachable!()` arm, proved unreachable under `c ∈ OPERATORS`. -/
def twoCharOp (c : Char) : Option Token :=
  match c with
  | '!' => some .BangEqual
  | '=' => some .EqualEqual
  | '<' => some .LessEqual
  | '>' => some .GreatEqual
  | _ => none

/-- The one-character operator arms (lines 211–214); `none` is the
`unreachable!()` arm, proved unreachable under `c ∈ OPERATORS`. -/
def oneCharOp (c : Char) : Option Token :=
  match c with
  | '!' => some .Bang
  | '=' => some .Equal
  | '<' => some .Less
  | '>' => some .Greater
  | _ => none

/-- Push the token selected by an operator arm (no-op models the
`unreachable!()` case, which never fires on the guarded paths). -/
def pushOpt (st : ScanState) (t : Option Token) : ScanState :=
  match t with
  | some tok => { st with tokens := st.tokens ++ [tok] }
  | none => st

/-- Left brace, written via its code point to keep it out of string context. -/
def lbraceChar : Char := Char.ofNat 123

/-- Right brace, written via its code point. -/
def rbraceChar : Char := Char.ofNat 125

/-- One iteration of the main loop when no lexeme class is open (the
whitespace check and the `match c` of lines 163–231).  `current_offset` is
the position `c` was read from; the cursor already stands at
`current_offset + 1`.  Returns the new cursor and state. -/
def idleStep (src : List Byte) (current_offset : Nat) (c : Char) (st : ScanState) :
    Nat × ScanState :=
  if char_is_whitespace c then (current_offset + 1, st)
  else if c = '(' then
    (current_offset + 1, { st with tokens := st.tokens ++ [Token.LeftParen] })
  else if c = ')' then
    (current_offset + 1, { st with tokens := st.tokens ++ [Token.RightParen] })
  else if c = lbraceChar then
    (current_offset + 1, { st with tokens := st.tokens ++ [Token.LeftBrace] })
  else if c = rbraceChar then
    (current_offset + 1, { st with tokens := st.tokens ++ [Token.RightBrace] })
  else if c = ',' then
    (current_offset + 1, { st with tokens := st.tokens ++ [Token.Comma] })
  else if c = '.' then
    (current_offset + 1, { st with tokens := st.tokens ++ [Token.Dot] })
  else if c = '-' then
    (current_offset + 1, { st with tokens := st.tokens ++ [Token.Minus] })
  else if c = '+' then
    (current_offset + 1, { st with tokens := st.tokens ++ [Token.Plus] })
  else if c = ';' then
    (current_offset + 1, { st with tokens := st.tokens ++ [Token.Semicolon] })
  else if c = '*' then
    (current_offset + 1, { st with tokens := st.tokens ++ [Token.Star] })
  else if c = '"' then
    (current_offset + 1,
      { st with read_start_offset := current_offset, reading_string := true })
  else if char_is_numeric c then
    (current_offset + 1, { st with
      read_start_offset := current_offset
      reading_number := true
      string_buf := st.string_buf ++ [c] })
  else if char_is_alphabetic c then
    (current_offset + 1, { st with
      read_start_offset := current_offset
      reading_identifier := true
      string_buf := st.string_buf ++ [c] })
  else if c ∈ OPERATORS then
    if current_offset + 1 < src.length ∧ byteChar (src.getD (current_offset + 1) 0) = '=' then
      (current_offset + 2, pushOpt st (twoCharOp c))
    else
      (current_offset + 1, pushOpt st (oneCharOp c))
  else if c = '/' then
    if current_offset + 1 < src.length ∧ byteChar (src.getD (current_offset + 1) 0) = '/' then
      (skipToNewline src (current_offset + 1), st)
    else
      (current_offset + 1, { st with tokens := st.tokens ++ [Token.Slash] })
  else
    (current_offset + 1, { st with errors := st.errors ++
      [generate_report src ("Invalid token " ++ sq ++ String.mk [c] ++ sq)
        current_offset] })

/-- The identifier phase of one iteration (lines 130–161 followed by the idle
dispatch): accumulate while alphanumeric, otherwise close the identifier (if
one is open) and re-examine the character by the idle rules. -/
def identStep (src : List Byte) (current_offset : Nat) (c : Char) (st : ScanState) :
    Nat × ScanState :=
  if st.reading_identifier && char_is_alphanumeric c then
    (current_offset + 1, { st with string_buf := st.string_buf ++ [c] })
  else if st.reading_identifier then
    idleStep src current_offset c (close_identifier st)
  else
    idleStep src current_offset c st

/-- One iteration of the main `while` loop of `tokenize` (lines 80–233):
the open-string case first, then the open-number case (closing a number
falls through, in the same iteration, to the identifier phase and the idle
dispatch on the same character), then `identStep`. -/
def scanStep (src : List Byte) (current_offset : Nat) (c : Char) (st : ScanState) :
    Nat × ScanState :=
  if st.reading_string then
    if st.escape_next then
      (current_offset + 1,
        { st with string_buf := st.string_buf ++ [c], escape_next := false })
    else if c = '"' then
      (current_offset + 1, { st with
        reading_string := false
        string_buf := []
        tokens := st.tokens ++ [Token.String (String.mk st.string_buf)] })
    else if c = '\\' then
      (current_offset + 1, { st with escape_next := true })
    else
      (current_offset + 1, { st with string_buf := st.string_buf ++ [c] })
  else if st.reading_number && (char_is_numeric c || c == '.') then
    (current_offset + 1, { st with string_buf := st.string_buf ++ [c] })
  else if st.reading_number then
    identStep src current_offset c (close_number src st)
  else
    identStep src current_offset c st

/-- The main `while` loop, fueled.  The cursor strictly increases each
iteration, so fuel `src.length + 1` is sufficient (proved below). -/
def scanLoop (src : List Byte) : Nat → Nat → ScanState → ScanState
  | 0, _, st => st
  | fuel + 1, offset, st =>
    if h : offset < src.length then
      let p := scanStep src offset (byteChar (src.get ⟨offset, h⟩)) st
      scanLoop src fuel p.1 p.2
    else st

/-- The state at entry of the loop. -/
def initState : ScanState := ⟨[], [], false, false, false, 0, false, []⟩

/-- The sentinel blank appended before scanning (`self.source.push(' ')`). -/
def extend (source : List Byte) : List Byte := source ++ [32]

/-- The scan state after the main loop has consumed the whole (sentinel-
extended) buffer. -/
def finalLoopState (source : List Byte) : ScanState :=
  scanLoop (extend source) ((extend source).length + 1) 0 initState

/-- The state after the post-loop unterminated-string check (lines 235–246). -/
def finalState (source : List Byte) : ScanState :=
  if (finalLoopState source).reading_string then
    { finalLoopState source with
      string_buf := []
      errors := (finalLoopState source).errors ++
        [generate_report (extend source)
          ("Unterminated string " ++ String.mk (finalLoopState source).string_buf)
          ((finalLoopState source).read_start_offset)] }
  else finalLoopState source

/-- The scan entry point (`Tokenizer::tokenize`): push the terminal `Eof`,
then fail with the
newline-joined diagnostics when any error was recorded, succeed with the
token sequence otherwise. -/
def tokenize (source : List Byte) : Except String (List Token) :=
  if (finalState source).errors.length > 0 then
    Except.error (String.intercalate "\n" (finalState source).errors)
  else Except.ok ((finalState source).tokens ++ [Token.Eof])

/-- A state with its token and error accumulators emptied (used to state that
the scan's control flow and fresh output are independent of what was already
accumulated). -/
def clear (st : ScanState) : ScanState := { st with tokens := [], errors := [] }

end Lox

deriving instance DecidableEq for Except

namespace Lox

/-! ### Location resolution -/

theorem locWalk_succ (src : List Byte) :
    ∀ (n current_offset line column : Nat),
    locWalk src (n + 1) current_offset line column =
      (if byteChar (src.getD (current_offset + n) 0) = '\n' then
        ((locWalk src n current_offset line column).1 + 1, 2)
      else
        ((locWalk src n current_offset line column).1,
          (locWalk src n current_offset line column).2 + 1)) := by
  intro n
  induction n with
  | zero =>
    intro co line column
    simp [locWalk]
  | succ n ih =>
    intro co line column
    rw [locWalk]
    conv_rhs => rw [locWalk]
    have harith : co + 1 + n = co + (n + 1) := by omega
    rw [ih (co + 1) (line + 1) 2, ih (co + 1) line (column + 1), harith]
    by_cases h0 : byteChar (src.getD co 0) = '\n' <;>
      by_cases h1 : byteChar (src.getD (co + (n + 1)) 0) = '\n' <;>
      simp only [List.getD_eq_getElem?_getD] at h0 h1 <;>
      simp [h0, h1]

theorem locWalk_take (src : List Byte) (j : Nat) :
    ∀ (n co line col : Nat), co + n ≤ j →
      locWalk (src.take j) n co line col = locWalk src n co line col := by
  intro n
  induction n with
  | zero => intro co line col _; rfl
  | succ n ih =>
    intro co line col h
    have hco : co < j := by omega
    have hg : (src.take j).getD co 0 = src.getD co 0 := by
      rw [List.getD_eq_getElem?_getD, List.getD_eq_getElem?_getD, List.getElem?_take,
        if_pos hco]
    rw [locWalk, locWalk, hg]
    split <;> exact ih _ _ _ (by omega)

/-! ### Comment skipping -/

theorem skipGo_ge (src : List Byte) : ∀ (fuel o : Nat), o ≤ skipGo src fuel o := by
  intro fuel
  induction fuel with
  | zero => intro o; exact Nat.le_refl o
  | succ f ih =>
    intro o
    rw [skipGo]
    split
    · exact Nat.le_trans (Nat.le_succ o) (ih (o + 1))
    · exact Nat.le_refl o

theorem skipGo_le (src : List Byte) :
    ∀ (fuel o : Nat), o ≤ src.length → skipGo src fuel o ≤ src.length := by
  intro fuel
  induction fuel with
  | zero => intro o h; exact h
  | succ f ih =>
    intro o h
    rw [skipGo]
    split
    · rename_i hc
      exact ih (o + 1) (by omega)
    · exact h

theorem skipGo_between (src : List Byte) :
    ∀ (fuel o k : Nat), o ≤ k → k < skipGo src fuel o →
      byteChar (src.getD k 0) ≠ '\n' := by
  intro fuel
  induction fuel with
  | zero =>
    intro o k h1 h2
    rw [skipGo] at h2
    omega
  | succ f ih =>
    intro o k h1 h2
    rw [skipGo] at h2
    split at h2
    · rename_i hc
      rcases Nat.eq_or_lt_of_le h1 with rfl | hlt
      · exact hc.2
      · exact ih (o + 1) k hlt h2
    · omega

theorem skipGo_end (src : List Byte) :
    ∀ (fuel o : Nat), o ≤ src.length → src.length ≤ o + fuel →
      skipGo src fuel o = src.length ∨
        byteChar (src.getD (skipGo src fuel o) 0) = '\n' := by
  intro fuel
  induction fuel with
  | zero =>
    intro o h1 h2
    rw [skipGo]
    left; omega
  | succ f ih =>
    intro o h1 h2
    rw [skipGo]
    split
    · rename_i hc
      exact ih (o + 1) hc.1 (by omega)
    · rename_i hc
      rw [Classical.not_and_iff_or_not_not] at hc
      rcases hc with hc | hc
      · left; omega
      · right; simpa using hc

theorem skipToNewline_ge (src : List Byte) (o : Nat) : o ≤ skipToNewline src o :=
  skipGo_ge src _ o

theorem skipToNewline_le (src : List Byte) (o : Nat) (h : o ≤ src.length) :
    skipToNewline src o ≤ src.length :=
  skipGo_le src _ o h

theorem skipToNewline_between (src : List Byte) (o k : Nat) (h1 : o ≤ k)
    (h2 : k < skipToNewline src o) : byteChar (src.getD k 0) ≠ '\n' :=
  skipGo_between src _ o k h1 h2

theorem skipToNewline_end (src : List Byte) (o : Nat) (h : o ≤ src.length) :
    skipToNewline src o = src.length ∨
      byteChar (src.getD (skipToNewline src o) 0) = '\n' :=
  skipGo_end src _ o h (by omega)

/-! ### Main-loop control -/

theorem scanLoop_step (src : List Byte) (fuel offset : Nat) (st : ScanState)
    (h : offset < src.length) :
    scanLoop src (fuel + 1) offset st =
      scanLoop src fuel (scanStep src offset (byteChar (src.get ⟨offset, h⟩)) st).1
        (scanStep src offset (byteChar (src.get ⟨offset, h⟩)) st).2 := by
  rw [scanLoop, dif_pos h]

theorem scanLoop_exit (src : List Byte) (fuel offset : Nat) (st : ScanState)
    (h : ¬ offset < src.length) : scanLoop src fuel offset st = st := by
  cases fuel with
  | zero => rw [scanLoop]
  | succ f => rw [scanLoop, dif_neg h]
/-! ### One-iteration master lemmas: accumulator frame (tokens and errors are
append-only and do not influence control flow), no spurious end-markers, how a
string lexeme can be open after the step, and cursor bounds. -/



theorem twoCharOp_ne_eof (c : Char) (t : Token) (h : twoCharOp c = some t) :
    t ≠ Token.Eof := by
  unfold twoCharOp at h
  split at h <;> (try cases h) <;> simp_all

theorem oneCharOp_ne_eof (c : Char) (t : Token) (h : oneCharOp c = some t) :
    t ≠ Token.Eof := by
  unfold oneCharOp at h
  split at h <;> (try cases h) <;> simp_all

theorem keyword_token_ne_eof (s : String) : keyword_token s ≠ Token.Eof := by
  unfold keyword_token
  split <;> simp

theorem idleStep_master (src : List Byte) (co : Nat) (c : Char) (st : ScanState) :
    idleStep src co c st =
      ((idleStep src co c (clear st)).1,
        { (idleStep src co c (clear st)).2 with
          tokens := st.tokens ++ (idleStep src co c (clear st)).2.tokens
          errors := st.errors ++ (idleStep src co c (clear st)).2.errors })
    ∧ (Token.Eof ∈ (idleStep src co c st).2.tokens → Token.Eof ∈ st.tokens)
    ∧ ((idleStep src co c st).2.reading_string = st.reading_string ∨
        (c = '"' ∧ (idleStep src co c st).1 = co + 1 ∧
          (idleStep src co c st).2.reading_string = true))
    ∧ co + 1 ≤ (idleStep src co c st).1
    ∧ (co < src.length → (idleStep src co c st).1 ≤ src.length) := by
  unfold idleStep
  by_cases h1 : char_is_whitespace c = true
  · rw [if_pos h1, if_pos h1]
    exact ⟨by simp [clear], fun h => h, Or.inl rfl, le_rfl, fun hl => hl⟩
  rw [if_neg h1, if_neg h1]
  by_cases h2 : c = '('
  · rw [if_pos h2, if_pos h2]
    exact ⟨by simp [clear], by simp [clear], Or.inl rfl, le_rfl, fun hl => hl⟩
  rw [if_neg h2, if_neg h2]
  by_cases h3 : c = ')'
  · rw [if_pos h3, if_pos h3]
    exact ⟨by simp [clear], by simp [clear], Or.inl rfl, le_rfl, fun hl => hl⟩
  rw [if_neg h3, if_neg h3]
  by_cases h4 : c = lbraceChar
  · rw [if_pos h4, if_pos h4]
    exact ⟨by simp [clear], by simp [clear], Or.inl rfl, le_rfl, fun hl => hl⟩
  rw [if_neg h4, if_neg h4]
  by_cases h5 : c = rbraceChar
  · rw [if_pos h5, if_pos h5]
    exact ⟨by simp [clear], by simp [clear], Or.inl rfl, le_rfl, fun hl => hl⟩
  rw [if_neg h5, if_neg h5]
  by_cases h6 : c = ','
  · rw [if_pos h6, if_pos h6]
    exact ⟨by simp [clear], by simp [clear], Or.inl rfl, le_rfl, fun hl => hl⟩
  rw [if_neg h6, if_neg h6]
  by_cases h7 : c = '.'
  · rw [if_pos h7, if_pos h7]
    exact ⟨by simp [clear], by simp [clear], Or.inl rfl, le_rfl, fun hl => hl⟩
  rw [if_neg h7, if_neg h7]
  by_cases h8 : c = '-'
  · rw [if_pos h8, if_pos h8]
    exact ⟨by simp [clear], by simp [clear], Or.inl rfl, le_rfl, fun hl => hl⟩
  rw [if_neg h8, if_neg h8]
  by_cases h9 : c = '+'
  · rw [if_pos h9, if_pos h9]
    exact ⟨by simp [clear], by simp [clear], Or.inl rfl, le_rfl, fun hl => hl⟩
  rw [if_neg h9, if_neg h9]
  by_cases h10 : c = ';'
  · rw [if_pos h10, if_pos h10]
    exact ⟨by simp [clear], by simp [clear], Or.inl rfl, le_rfl, fun hl => hl⟩
  rw [if_neg h10, if_neg h10]
  by_cases h11 : c = '*'
  · rw [if_pos h11, if_pos h11]
    exact ⟨by simp [clear], by simp [clear], Or.inl rfl, le_rfl, fun hl => hl⟩
  rw [if_neg h11, if_neg h11]
  by_cases h12 : c = '"'
  · rw [if_pos h12, if_pos h12]
    exact ⟨by simp [clear], fun h => h, Or.inr ⟨h12, rfl, rfl⟩, le_rfl, fun hl => hl⟩
  rw [if_neg h12, if_neg h12]
  by_cases h13 : char_is_numeric c = true
  · rw [if_pos h13, if_pos h13]
    exact ⟨by simp [clear], fun h => h, Or.inl rfl, le_rfl, fun hl => hl⟩
  rw [if_neg h13, if_neg h13]
  by_cases h14 : char_is_alphabetic c = true
  · rw [if_pos h14, if_pos h14]
    exact ⟨by simp [clear], fun h => h, Or.inl rfl, le_rfl, fun hl => hl⟩
  rw [if_neg h14, if_neg h14]
  by_cases h15 : c ∈ OPERATORS
  · rw [if_pos h15, if_pos h15]
    by_cases h15a : co + 1 < src.length ∧ byteChar (src.getD (co + 1) 0) = '='
    · rw [if_pos h15a, if_pos h15a]
      rcases h2c : twoCharOp c with _ | t
      · exact ⟨by simp [pushOpt, clear], by simp [pushOpt], Or.inl (by simp [pushOpt]),
          Nat.le_succ _, fun _ => h15a.1⟩
      · refine ⟨by simp [pushOpt, clear], ?_, Or.inl (by simp [pushOpt]),
          Nat.le_succ _, fun _ => h15a.1⟩
        intro h
        simp only [pushOpt, List.mem_append, List.mem_singleton] at h
        rcases h with h | h
        · exact h
        · exact absurd h.symm (twoCharOp_ne_eof c t h2c)
    · rw [if_neg h15a, if_neg h15a]
      rcases h1c : oneCharOp c with _ | t
      · exact ⟨by simp [pushOpt, clear], by simp [pushOpt], Or.inl (by simp [pushOpt]),
          le_rfl, fun hl => hl⟩
      · refine ⟨by simp [pushOpt, clear], ?_, Or.inl (by simp [pushOpt]),
          le_rfl, fun hl => hl⟩
        intro h
        simp only [pushOpt, List.mem_append, List.mem_singleton] at h
        rcases h with h | h
        · exact h
        · exact absurd h.symm (oneCharOp_ne_eof c t h1c)
  rw [if_neg h15, if_neg h15]
  by_cases h16 : c = '/'
  · rw [if_pos h16, if_pos h16]
    by_cases h16a : co + 1 < src.length ∧ byteChar (src.getD (co + 1) 0) = '/'
    · rw [if_pos h16a, if_pos h16a]
      exact ⟨by simp [clear], fun h => h, Or.inl rfl, skipToNewline_ge src (co + 1),
        fun hl => skipToNewline_le src (co + 1) hl⟩
    · rw [if_neg h16a, if_neg h16a]
      exact ⟨by simp [clear], by simp [clear], Or.inl rfl, le_rfl, fun hl => hl⟩
  rw [if_neg h16, if_neg h16]
  exact ⟨by simp [clear], fun h => h, Or.inl rfl, le_rfl, fun hl => hl⟩

theorem close_identifier_no_eof (st : ScanState)
    (h : Token.Eof ∈ (close_identifier st).tokens) : Token.Eof ∈ st.tokens := by
  unfold close_identifier at h
  simp only [List.mem_append, List.mem_singleton] at h
  rcases h with h | h
  · exact h
  · exact absurd h.symm (keyword_token_ne_eof _)

theorem close_number_no_eof (src : List Byte) (st : ScanState)
    (h : Token.Eof ∈ (close_number src st).tokens) : Token.Eof ∈ st.tokens := by
  unfold close_number at h
  rcases hp : parse_f64 st.string_buf with _ | q <;> simp only [hp] at h
  · exact h
  · simp only [List.mem_append, List.mem_singleton] at h
    rcases h with h | h
    · exact h
    · cases h

theorem close_number_reading_string (src : List Byte) (st : ScanState) :
    (close_number src st).reading_string = st.reading_string := by
  unfold close_number
  rcases hp : parse_f64 st.string_buf with _ | q <;> simp only [hp]

theorem identStep_master (src : List Byte) (co : Nat) (c : Char) (st : ScanState) :
    identStep src co c st =
      ((identStep src co c (clear st)).1,
        { (identStep src co c (clear st)).2 with
          tokens := st.tokens ++ (identStep src co c (clear st)).2.tokens
          errors := st.errors ++ (identStep src co c (clear st)).2.errors })
    ∧ (Token.Eof ∈ (identStep src co c st).2.tokens → Token.Eof ∈ st.tokens)
    ∧ ((identStep src co c st).2.reading_string = st.reading_string ∨
        (c = '"' ∧ (identStep src co c st).1 = co + 1 ∧
          (identStep src co c st).2.reading_string = true))
    ∧ co + 1 ≤ (identStep src co c st).1
    ∧ (co < src.length → (identStep src co c st).1 ≤ src.length) := by
  unfold identStep
  have hcl : (clear st).reading_identifier = st.reading_identifier := rfl
  rw [hcl]
  by_cases hid : (st.reading_identifier && char_is_alphanumeric c) = true
  · rw [if_pos hid, if_pos hid]
    exact ⟨by simp [clear], fun h => h, Or.inl rfl, le_rfl, fun hl => hl⟩
  rw [if_neg hid, if_neg hid]
  by_cases hrd : st.reading_identifier = true
  · rw [if_pos hrd, if_pos hrd]
    refine ⟨?_, ?_, ?_, (idleStep_master src co c (close_identifier st)).2.2.2.1,
      (idleStep_master src co c (close_identifier st)).2.2.2.2⟩
    · rw [(idleStep_master src co c (close_identifier st)).1,
        (idleStep_master src co c (close_identifier (clear st))).1]
      have e2 : clear (close_identifier (clear st)) = clear (close_identifier st) := by
        simp [close_identifier, clear]
      rw [e2]
      simp [close_identifier, clear, List.append_assoc]
    · exact fun h =>
        close_identifier_no_eof st ((idleStep_master src co c (close_identifier st)).2.1 h)
    · rcases (idleStep_master src co c (close_identifier st)).2.2.1 with h | h
      · exact Or.inl h
      · exact Or.inr h
  rw [if_neg hrd, if_neg hrd]
  exact idleStep_master src co c st

theorem scanStep_master (src : List Byte) (co : Nat) (c : Char) (st : ScanState) :
    scanStep src co c st =
      ((scanStep src co c (clear st)).1,
        { (scanStep src co c (clear st)).2 with
          tokens := st.tokens ++ (scanStep src co c (clear st)).2.tokens
          errors := st.errors ++ (scanStep src co c (clear st)).2.errors })
    ∧ (Token.Eof ∈ (scanStep src co c st).2.tokens → Token.Eof ∈ st.tokens)
    ∧ ((scanStep src co c st).2.reading_string = true →
        st.reading_string = true ∨ (c = '"' ∧ (scanStep src co c st).1 = co + 1))
    ∧ co + 1 ≤ (scanStep src co c st).1
    ∧ (co < src.length → (scanStep src co c st).1 ≤ src.length)
    ∧ (st.reading_string = true →
        (scanStep src co c st).1 = co + 1 ∧
        ((scanStep src co c st).2.reading_string = false ∨
          (scanStep src co c st).2.string_buf = st.string_buf ++ [c] ∨
          (c = '\\' ∧ (scanStep src co c st).2.string_buf = st.string_buf))) := by
  unfold scanStep
  have a1 : (clear st).reading_string = st.reading_string := rfl
  have a2 : (clear st).escape_next = st.escape_next := rfl
  have a3 : (clear st).reading_number = st.reading_number := rfl
  rw [a1, a2, a3]
  by_cases hs : st.reading_string = true
  · rw [if_pos hs, if_pos hs]
    by_cases he : st.escape_next = true
    · rw [if_pos he, if_pos he]
      exact ⟨by simp [clear], fun h => h, fun _ => Or.inl hs, le_rfl, fun hl => hl,
        fun _ => ⟨rfl, Or.inr (Or.inl rfl)⟩⟩
    rw [if_neg he, if_neg he]
    by_cases hq : c = '"'
    · rw [if_pos hq, if_pos hq]
      refine ⟨by simp [clear], ?_, ?_, le_rfl, fun hl => hl,
        fun _ => ⟨rfl, Or.inl rfl⟩⟩
      · intro h
        simp only [List.mem_append, List.mem_singleton] at h
        rcases h with h | h
        · exact h
        · cases h
      · intro h
        cases h
    rw [if_neg hq, if_neg hq]
    by_cases hb : c = '\\'
    · rw [if_pos hb, if_pos hb]
      exact ⟨by simp [clear], fun h => h, fun _ => Or.inl hs, le_rfl, fun hl => hl,
        fun _ => ⟨rfl, Or.inr (Or.inr ⟨hb, rfl⟩)⟩⟩
    rw [if_neg hb, if_neg hb]
    exact ⟨by simp [clear], fun h => h, fun _ => Or.inl hs, le_rfl, fun hl => hl,
      fun _ => ⟨rfl, Or.inr (Or.inl rfl)⟩⟩
  rw [if_neg hs, if_neg hs]
  by_cases hn : (st.reading_number && (char_is_numeric c || c == '.')) = true
  · rw [if_pos hn, if_pos hn]
    exact ⟨by simp [clear], fun h => h, fun h => Or.inl h, le_rfl, fun hl => hl,
      fun h => absurd h hs⟩
  rw [if_neg hn, if_neg hn]
  by_cases hrn : st.reading_number = true
  · rw [if_pos hrn, if_pos hrn]
    refine ⟨?_, ?_, ?_, (identStep_master src co c (close_number src st)).2.2.2.1,
      (identStep_master src co c (close_number src st)).2.2.2.2,
      fun h => absurd h hs⟩
    · rw [(identStep_master src co c (close_number src st)).1,
        (identStep_master src co c (close_number src (clear st))).1]
      have e2 : clear (close_number src (clear st)) = clear (close_number src st) := by
        unfold close_number
        rcases hp : parse_f64 st.string_buf with _ | q <;>
          simp [clear, hp]
      rw [e2]
      unfold close_number
      rcases hp : parse_f64 st.string_buf with _ | q <;>
        simp [clear, hp, List.append_assoc]
    · exact fun h =>
        close_number_no_eof src st ((identStep_master src co c (close_number src st)).2.1 h)
    · intro h
      rcases (identStep_master src co c (close_number src st)).2.2.1 with h2 | h2
      · rw [h, close_number_reading_string src st] at h2
        exact Or.inl h2.symm
      · exact Or.inr ⟨h2.1, h2.2.1⟩
  rw [if_neg hrn, if_neg hrn]
  refine ⟨(identStep_master src co c st).1, (identStep_master src co c st).2.1, ?_,
    (identStep_master src co c st).2.2.2.1, (identStep_master src co c st).2.2.2.2,
    fun h => absurd h hs⟩
  intro h
  rcases (identStep_master src co c st).2.2.1 with h2 | h2
  · rw [h] at h2
    exact Or.inl h2.symm
  · exact Or.inr ⟨h2.1, h2.2.1⟩


theorem scanStep_fst_ge (src : List Byte) (co : Nat) (c : Char) (st : ScanState) :
    co + 1 ≤ (scanStep src co c st).1 :=
  (scanStep_master src co c st).2.2.2.1

theorem scanStep_fst_le (src : List Byte) (co : Nat) (c : Char) (st : ScanState)
    (h : co < src.length) : (scanStep src co c st).1 ≤ src.length :=
  (scanStep_master src co c st).2.2.2.2.1 h

theorem scanLoop_fuel (src : List Byte) :
    ∀ (fuel1 fuel2 offset : Nat) (st : ScanState),
      src.length ≤ offset + fuel1 → src.length ≤ offset + fuel2 →
      scanLoop src fuel1 offset st = scanLoop src fuel2 offset st := by
  intro fuel1
  induction fuel1 with
  | zero =>
    intro fuel2 offset st h1 h2
    have h : ¬ offset < src.length := by omega
    rw [scanLoop_exit src _ _ _ h, scanLoop_exit src _ _ _ h]
  | succ f1 ih =>
    intro fuel2 offset st h1 h2
    by_cases h : offset < src.length
    · cases fuel2 with
      | zero => omega
      | succ f2 =>
        rw [scanLoop_step src f1 offset st h, scanLoop_step src f2 offset st h]
        have hge := scanStep_fst_ge src offset (byteChar (src.get ⟨offset, h⟩)) st
        exact ih f2 _ _ (by omega) (by omega)
    · rw [scanLoop_exit src _ _ _ h, scanLoop_exit src _ _ _ h]


/-! ### Whole-loop invariants -/

theorem scanLoop_frame (src : List Byte) :
    ∀ (fuel offset : Nat) (st : ScanState),
      (scanLoop src fuel offset st).tokens
          = st.tokens ++ (scanLoop src fuel offset (clear st)).tokens
      ∧ (scanLoop src fuel offset st).errors
          = st.errors ++ (scanLoop src fuel offset (clear st)).errors := by
  intro fuel
  induction fuel with
  | zero =>
    intro offset st
    constructor <;> rw [scanLoop, scanLoop] <;> simp [clear]
  | succ f ih =>
    intro offset st
    by_cases h : offset < src.length
    · have hm := (scanStep_master src offset (byteChar (src.get ⟨offset, h⟩)) st).1
      have hp1 : (scanStep src offset (byteChar (src.get ⟨offset, h⟩)) st).1
          = (scanStep src offset (byteChar (src.get ⟨offset, h⟩)) (clear st)).1 := by
        rw [hm]
      have hptok : (scanStep src offset (byteChar (src.get ⟨offset, h⟩)) st).2.tokens
          = st.tokens
            ++ (scanStep src offset (byteChar (src.get ⟨offset, h⟩)) (clear st)).2.tokens := by
        rw [hm]
      have hperr : (scanStep src offset (byteChar (src.get ⟨offset, h⟩)) st).2.errors
          = st.errors
            ++ (scanStep src offset (byteChar (src.get ⟨offset, h⟩)) (clear st)).2.errors := by
        rw [hm]
      have hpclear : clear (scanStep src offset (byteChar (src.get ⟨offset, h⟩)) st).2
          = clear (scanStep src offset (byteChar (src.get ⟨offset, h⟩)) (clear st)).2 := by
        rw [hm]
        rfl
      constructor
      · rw [scanLoop_step src f offset st h, scanLoop_step src f offset (clear st) h,
          (ih _ _).1, hptok, hp1, hpclear, List.append_assoc,
          ← (ih ((scanStep src offset (byteChar (src.get ⟨offset, h⟩)) (clear st)).1)
            ((scanStep src offset (byteChar (src.get ⟨offset, h⟩)) (clear st)).2)).1]
      · rw [scanLoop_step src f offset st h, scanLoop_step src f offset (clear st) h,
          (ih _ _).2, hperr, hp1, hpclear, List.append_assoc,
          ← (ih ((scanStep src offset (byteChar (src.get ⟨offset, h⟩)) (clear st)).1)
            ((scanStep src offset (byteChar (src.get ⟨offset, h⟩)) (clear st)).2)).2]
    · rw [scanLoop_exit src _ _ _ h, scanLoop_exit src _ _ _ h]
      exact ⟨by simp [clear], by simp [clear]⟩

theorem scanLoop_no_eof (src : List Byte) :
    ∀ (fuel offset : Nat) (st : ScanState),
      Token.Eof ∈ (scanLoop src fuel offset st).tokens → Token.Eof ∈ st.tokens := by
  intro fuel
  induction fuel with
  | zero =>
    intro offset st hm
    rw [scanLoop] at hm
    exact hm
  | succ f ih =>
    intro offset st hm
    by_cases h : offset < src.length
    · rw [scanLoop_step src f offset st h] at hm
      exact (scanStep_master src offset (byteChar (src.get ⟨offset, h⟩)) st).2.1 (ih _ _ hm)
    · rw [scanLoop_exit src _ _ _ h] at hm
      exact hm

theorem scanStep_string_inv (src : List Byte) (co : Nat) (c : Char) (st : ScanState)
    (hco : co < src.length) (hlast : co + 1 = src.length → c = ' ') :
    (scanStep src co c st).2.reading_string = true →
    (scanStep src co c st).1 < src.length ∨
      ∃ b, (scanStep src co c st).2.string_buf = b ++ [' '] := by
  intro hread
  by_cases hs : st.reading_string = true
  · obtain ⟨hfst, hcase⟩ := (scanStep_master src co c st).2.2.2.2.2 hs
    rcases hcase with hclose | hbuf | ⟨hc, hbuf⟩
    · rw [hclose] at hread
      cases hread
    · by_cases hend : co + 1 = src.length
      · exact Or.inr ⟨st.string_buf, by rw [hbuf, hlast hend]⟩
      · exact Or.inl (by rw [hfst]; omega)
    · by_cases hend : co + 1 = src.length
      · exact absurd (hlast hend) (by rw [hc]; decide)
      · exact Or.inl (by rw [hfst]; omega)
  · rcases (scanStep_master src co c st).2.2.1 hread with h | ⟨hc, hfst⟩
    · exact absurd h hs
    · by_cases hend : co + 1 = src.length
      · exact absurd (hlast hend) (by rw [hc]; decide)
      · exact Or.inl (by rw [hfst]; omega)

theorem scanLoop_string_inv (src : List Byte)
    (hlast : byteChar (src.getD (src.length - 1) 0) = ' ') :
    ∀ (fuel offset : Nat) (st : ScanState),
      src.length ≤ offset + fuel →
      (st.reading_string = true → offset < src.length ∨ ∃ b, st.string_buf = b ++ [' ']) →
      (scanLoop src fuel offset st).reading_string = true →
      ∃ b, (scanLoop src fuel offset st).string_buf = b ++ [' '] := by
  intro fuel
  induction fuel with
  | zero =>
    intro offset st hf hinv hread
    rw [scanLoop] at hread ⊢
    rcases hinv hread with h | h
    · omega
    · exact h
  | succ f ih =>
    intro offset st hf hinv hread
    by_cases h : offset < src.length
    · rw [scanLoop_step src f offset st h] at hread ⊢
      refine ih _ _ ?_ ?_ hread
      · have := scanStep_fst_ge src offset (byteChar (src.get ⟨offset, h⟩)) st
        omega
      · intro hr
        apply scanStep_string_inv src offset _ st h ?_ hr
        intro hend
        have hoff : offset = src.length - 1 := by omega
        have hgd : src.getD (src.length - 1) 0 = src.get ⟨offset, h⟩ := by
          rw [List.getD_eq_getElem _ _ (by omega : src.length - 1 < src.length)]
          subst hoff
          simp [List.get_eq_getElem]
        rw [← hgd]
        exact hlast
    · rw [scanLoop_exit src _ _ _ h] at hread ⊢
      rcases hinv hread with h' | h'
      · omega
      · exact h'


/-! ### Claims -/

/-- C1 (amended): every diagnostic is formatted exactly as
"[line:column] Error: message", where (line, column) is computed by re-walking
the buffer from the start counting characters and newlines.  The walk starts
from (1, 1) and the first character of line 1 is reported at column 1, but on
seeing a newline the column counter is reset to 1 and then still incremented,
so the first character of every later line is reported at column 2. -/
theorem C1_report_format_amended :
    (∀ (src : List Byte) (msg : String) (offset : Nat),
      generate_report src msg offset =
        "[" ++ toString (get_2d_location src offset).1 ++ ":" ++
          toString (get_2d_location src offset).2 ++ "] Error: " ++ msg)
    ∧ (∀ src : List Byte, get_2d_location src 0 = (1, 1))
    ∧ (∀ (src : List Byte) (offset : Nat),
        get_2d_location src (offset + 1) =
          if byteChar (src.getD offset 0) = '\n' then
            ((get_2d_location src offset).1 + 1, 2)
          else
            ((get_2d_location src offset).1, (get_2d_location src offset).2 + 1)) := by
  refine ⟨fun src msg offset => rfl, fun src => rfl, fun src offset => ?_⟩
  have h := locWalk_succ src offset 0 1 1
  simpa [get_2d_location] using h

/-- C1 is false as stated: on the two-byte input "\n@" the invalid-token
diagnostic is anchored at offset 1, the first character of line 2, yet the
reported position is [2:2] — column 2, not column 1. -/
theorem C1_column_counterexample :
    tokenize [10, 64] =
      Except.error ("[2:2] Error: Invalid token " ++ sq ++ "@" ++ sq)
    ∧ get_2d_location (extend [10, 64]) 1 = (2, 2) := by
  exact ⟨by decide, by decide⟩

/-- C2: the scan never aborts early — recorded errors are a pure accumulator
(the tokens produced and the errors appended by the rest of the scan do not
depend on what was already accumulated) — and the call fails, with exactly the
newline-joined diagnostics in discovery order, if and only if at least one
error was recorded; otherwise it succeeds with the token sequence. -/
theorem C2_failure_iff :
    ∀ source : List Byte,
      (tokenize source = Except.error (String.intercalate "\n" (finalState source).errors)
        ↔ (finalState source).errors ≠ [])
      ∧ (tokenize source = Except.ok ((finalState source).tokens ++ [Token.Eof])
        ↔ (finalState source).errors = [])
      ∧ (∀ (fuel offset : Nat) (st : ScanState),
          (scanLoop (extend source) fuel offset st).tokens
            = st.tokens ++ (scanLoop (extend source) fuel offset (clear st)).tokens
          ∧ (scanLoop (extend source) fuel offset st).errors
            = st.errors ++ (scanLoop (extend source) fuel offset (clear st)).errors) := by
  intro source
  by_cases he : (finalState source).errors = []
  · have ht : tokenize source = Except.ok ((finalState source).tokens ++ [Token.Eof]) := by
      unfold tokenize
      rw [if_neg (by simp [he])]
    refine ⟨?_, ?_, fun fuel offset st => scanLoop_frame (extend source) fuel offset st⟩ <;>
      rw [ht] <;> simp [he]
  · have ht : tokenize source
        = Except.error (String.intercalate "\n" (finalState source).errors) := by
      unfold tokenize
      rw [if_pos (List.length_pos.2 he)]
    refine ⟨?_, ?_, fun fuel offset st => scanLoop_frame (extend source) fuel offset st⟩ <;>
      rw [ht] <;> simp [he]

/-- C2 witness: on the input "@" the call fails with the recorded diagnostics
newline-joined. -/
theorem C2_failure_iff_witness :
    tokenize [64] = Except.error (String.intercalate "\n" (finalState [64]).errors) :=
  (C2_failure_iff [64]).1.mpr (by decide)

/-- C3: a successful scan returns a non-empty sequence whose last element is
the end-of-input marker Eof, and no other element equals Eof. -/
theorem C3_eof_terminal :
    ∀ (source : List Byte) (ts : List Token), tokenize source = Except.ok ts →
      ts ≠ [] ∧ ts.getLast? = some Token.Eof ∧
      ∀ i : Nat, i + 1 < ts.length → ts.getD i Token.Eof ≠ Token.Eof := by
  intro source ts h
  have hts : ts = (finalState source).tokens ++ [Token.Eof] := by
    unfold tokenize at h
    by_cases he : (finalState source).errors.length > 0
    · rw [if_pos he] at h
      cases h
    · rw [if_neg he] at h
      injection h with h
      exact h.symm
  have hno : Token.Eof ∉ (finalState source).tokens := by
    intro hmem
    have hfs : (finalState source).tokens = (finalLoopState source).tokens := by
      unfold finalState
      split <;> rfl
    rw [hfs] at hmem
    have := scanLoop_no_eof (extend source) ((extend source).length + 1) 0 initState hmem
    simp [initState] at this
  subst hts
  refine ⟨by simp, by rw [List.getLast?_concat], ?_⟩
  intro i hi
  have hi' : i < (finalState source).tokens.length := by
    simp only [List.length_append, List.length_singleton] at hi
    omega
  rw [List.getD_eq_getElem?_getD, List.getElem?_append, if_pos hi',
    ← List.getD_eq_getElem?_getD]
  intro heq
  apply hno
  have hg : (finalState source).tokens[i] = Token.Eof := by
    rw [← List.getD_eq_getElem (finalState source).tokens Token.Eof hi']
    exact heq
  exact hg ▸ List.getElem_mem hi'

/-- C3 witness: empty input succeeds with exactly [Eof], which satisfies the
terminal-marker property. -/
theorem C3_eof_terminal_witness :
    ([Token.Eof] : List Token) ≠ [] ∧
      ([Token.Eof] : List Token).getLast? = some Token.Eof ∧
      ∀ i : Nat, i + 1 < ([Token.Eof] : List Token).length →
        ([Token.Eof] : List Token).getD i Token.Eof ≠ Token.Eof :=
  C3_eof_terminal [] [Token.Eof] (by decide)

/-- C9: tokenize terminates and is panic-free in this model: the cursor
strictly increases each iteration and stays within the buffer, the scan
result is independent of the fuel once the fuel covers the remaining buffer
(so the fueled model computes the value of the Rust while-loop), the
operator dispatch never reaches its unreachable arms when the dispatched
character is one of the four operator characters, and the diagnostic
location re-walk reads only the first offset bytes of the buffer. -/
theorem C9_safety :
    (∀ (src : List Byte) (co : Nat) (c : Char) (st : ScanState),
      co + 1 ≤ (scanStep src co c st).1)
    ∧ (∀ (src : List Byte) (co : Nat) (c : Char) (st : ScanState), co < src.length →
        (scanStep src co c st).1 ≤ src.length)
    ∧ (∀ (src : List Byte) (fuel1 fuel2 offset : Nat) (st : ScanState),
        src.length ≤ offset + fuel1 → src.length ≤ offset + fuel2 →
        scanLoop src fuel1 offset st = scanLoop src fuel2 offset st)
    ∧ (∀ (source : List Byte) (fuel : Nat), (extend source).length ≤ fuel →
        scanLoop (extend source) fuel 0 initState = finalLoopState source)
    ∧ (∀ c : Char, c ∈ OPERATORS →
        (twoCharOp c).isSome = true ∧ (oneCharOp c).isSome = true)
    ∧ (∀ (src : List Byte) (offset : Nat),
        get_2d_location src offset = get_2d_location (src.take offset) offset) := by
  refine ⟨scanStep_fst_ge, scanStep_fst_le, fun src => scanLoop_fuel src, ?_, ?_, ?_⟩
  · intro source fuel hf
    exact scanLoop_fuel (extend source) fuel ((extend source).length + 1) 0 initState
      (by omega) (by omega)
  · intro c hc
    simp only [OPERATORS, List.mem_cons, List.not_mem_nil, or_false] at hc
    rcases hc with rfl | rfl | rfl | rfl <;> exact ⟨rfl, rfl⟩
  · intro src offset
    exact (locWalk_take src offset offset 0 1 1 (by omega)).symm

/-- C9 witness: the bounds, fuel independence and operator totality at
concrete inputs. -/
theorem C9_safety_witness :
    0 + 1 ≤ (scanStep [(64 : Byte), 32] 0 (byteChar 64) initState).1 ∧
    scanLoop [(64 : Byte), 32] 7 0 initState = scanLoop [(64 : Byte), 32] 2 0 initState ∧
    ((twoCharOp (Char.ofNat 60)).isSome = true ∧ (oneCharOp (Char.ofNat 60)).isSome = true) :=
  ⟨C9_safety.1 [64, 32] 0 (byteChar 64) initState,
   C9_safety.2.2.1 [64, 32] 7 2 0 initState (by decide) (by decide),
   C9_safety.2.2.2.2.1 (Char.ofNat 60) (by decide)⟩


/-! ### Branch-resolution helpers for the idle dispatch -/

theorem scanStep_idle (src : List Byte) (co : Nat) (c : Char) (st : ScanState)
    (hs : st.reading_string = false) (hn : st.reading_number = false)
    (hi : st.reading_identifier = false) :
    scanStep src co c st = idleStep src co c st := by
  unfold scanStep identStep
  rw [if_neg (by simp [hs]), if_neg (by simp [hn]), if_neg (by simp [hn]),
    if_neg (by simp [hi]), if_neg (by simp [hi])]

theorem idleStep_op (src : List Byte) (co : Nat) (c : Char) (st : ScanState)
    (hw : ¬ char_is_whitespace c = true)
    (h2 : ¬ c = '(') (h3 : ¬ c = ')') (h4 : ¬ c = lbraceChar) (h5 : ¬ c = rbraceChar)
    (h6 : ¬ c = ',') (h7 : ¬ c = '.') (h8 : ¬ c = '-') (h9 : ¬ c = '+')
    (h10 : ¬ c = ';') (h11 : ¬ c = '*') (h12 : ¬ c = '"')
    (h13 : ¬ char_is_numeric c = true) (h14 : ¬ char_is_alphabetic c = true)
    (hop : c ∈ OPERATORS) :
    idleStep src co c st =
      if co + 1 < src.length ∧ byteChar (src.getD (co + 1) 0) = '=' then
        (co + 2, pushOpt st (twoCharOp c))
      else (co + 1, pushOpt st (oneCharOp c)) := by
  unfold idleStep
  rw [if_neg hw, if_neg h2, if_neg h3, if_neg h4, if_neg h5, if_neg h6, if_neg h7,
    if_neg h8, if_neg h9, if_neg h10, if_neg h11, if_neg h12, if_neg h13, if_neg h14,
    if_pos hop]

theorem idleStep_slash (src : List Byte) (co : Nat) (st : ScanState) :
    idleStep src co '/' st =
      if co + 1 < src.length ∧ byteChar (src.getD (co + 1) 0) = '/' then
        (skipToNewline src (co + 1), st)
      else (co + 1, { st with tokens := st.tokens ++ [Token.Slash] }) := by
  unfold idleStep
  rw [if_neg (by decide), if_neg (by decide), if_neg (by decide), if_neg (by decide),
    if_neg (by decide), if_neg (by decide), if_neg (by decide), if_neg (by decide),
    if_neg (by decide), if_neg (by decide), if_neg (by decide), if_neg (by decide),
    if_neg (by decide), if_neg (by decide), if_neg (by decide), if_pos rfl]

theorem idleStep_numeric (src : List Byte) (co : Nat) (c : Char) (st : ScanState)
    (hnum : char_is_numeric c = true) :
    idleStep src co c st =
      (co + 1, { st with
        read_start_offset := co
        reading_number := true
        string_buf := st.string_buf ++ [c] }) := by
  have hw : ¬ char_is_whitespace c = true := by
    simp only [char_is_whitespace, char_is_numeric, decide_eq_true_eq] at hnum ⊢
    omega
  unfold idleStep
  rw [if_neg hw,
    if_neg (by rintro rfl; exact absurd hnum (by decide)),
    if_neg (by rintro rfl; exact absurd hnum (by decide)),
    if_neg (by rintro rfl; exact absurd hnum (by decide)),
    if_neg (by rintro rfl; exact absurd hnum (by decide)),
    if_neg (by rintro rfl; exact absurd hnum (by decide)),
    if_neg (by rintro rfl; exact absurd hnum (by decide)),
    if_neg (by rintro rfl; exact absurd hnum (by decide)),
    if_neg (by rintro rfl; exact absurd hnum (by decide)),
    if_neg (by rintro rfl; exact absurd hnum (by decide)),
    if_neg (by rintro rfl; exact absurd hnum (by decide)),
    if_neg (by rintro rfl; exact absurd hnum (by decide)),
    if_pos hnum]

theorem close_number_reading_number (src : List Byte) (st : ScanState) :
    (close_number src st).reading_number = false := by
  unfold close_number
  rcases hp : parse_f64 st.string_buf with _ | q <;> simp only [hp]

theorem extend_getD_last (source : List Byte) :
    (extend source).getD ((extend source).length - 1) 0 = 32 := by
  unfold extend
  rw [List.getD_eq_getElem?_getD]
  have hl : (source ++ [(32 : Byte)]).length - 1 = source.length := by simp
  rw [hl, List.getElem?_append, if_neg (by omega), Nat.sub_self]
  rfl

theorem extend_last (source : List Byte) :
    byteChar ((extend source).getD ((extend source).length - 1) 0) = ' ' := by
  rw [extend_getD_last]
  rfl


/-- C4 (amended): a number lexeme is opened on any character that the
byte-as-char Unicode test char::is_numeric accepts — the decimal digits plus,
within the byte range, ¹ ² ³ ¼ ½ ¾ — and accumulates exactly while the current
character passes that same test or is a literal dot; on the first non-matching
character the accumulated text is parsed (a number token on success, an
"Invalid number" diagnostic anchored at the lexeme start on failure) and the
closing character is re-examined by the normal dispatch rules, not consumed. -/
theorem C4_number_lexing_amended :
    (∀ (src : List Byte) (co : Nat) (c : Char) (st : ScanState),
      st.reading_string = false → st.reading_number = false →
      st.reading_identifier = false → char_is_numeric c = true →
      scanStep src co c st =
        (co + 1, { st with
          read_start_offset := co
          reading_number := true
          string_buf := st.string_buf ++ [c] }))
    ∧ (∀ (src : List Byte) (co : Nat) (c : Char) (st : ScanState),
      st.reading_string = false → st.reading_number = true →
      (char_is_numeric c || c == '.') = true →
      scanStep src co c st = (co + 1, { st with string_buf := st.string_buf ++ [c] }))
    ∧ (∀ (src : List Byte) (co : Nat) (c : Char) (st : ScanState),
      st.reading_string = false → st.reading_number = true →
      st.reading_identifier = false →
      (char_is_numeric c || c == '.') = false →
      scanStep src co c st = scanStep src co c (close_number src st))
    ∧ (∀ (src : List Byte) (st : ScanState),
      close_number src st =
        match parse_f64 st.string_buf with
        | some num =>
          { st with
            reading_number := false
            string_buf := []
            tokens := st.tokens ++ [Token.Number num] }
        | none =>
          { st with
            reading_number := false
            string_buf := []
            errors := st.errors ++
              [generate_report src
                ("Invalid number " ++ sq ++ String.mk st.string_buf ++ sq)
                st.read_start_offset] }) := by
  refine ⟨?_, ?_, ?_, fun src st => rfl⟩
  · intro src co c st hs hn hi hnum
    rw [scanStep_idle src co c st hs hn hi, idleStep_numeric src co c st hnum]
  · intro src co c st hs hn hcond
    unfold scanStep
    rw [if_neg (by simp [hs]), if_pos (by simp [hn, hcond])]
  · intro src co c st hs hn hi hcond
    unfold scanStep
    rw [if_neg (by simp [hs]), if_neg (by simp [hcond]), if_pos hn,
      if_neg (by simp [close_number_reading_string src st, hs]),
      if_neg (by simp [close_number_reading_number src st]),
      if_neg (by simp [close_number_reading_number src st])]

/-- C4 witness: on the digit 5 in the idle state, a number lexeme is opened,
seeded with the character, with the start offset recorded. -/
theorem C4_number_lexing_amended_witness :
    scanStep [(53 : Byte), 32] 0 (byteChar 53) initState =
      (1, { initState with
        read_start_offset := 0
        reading_number := true
        string_buf := initState.string_buf ++ [byteChar 53] }) :=
  C4_number_lexing_amended.1 [53, 32] 0 (byteChar 53) initState rfl rfl rfl (by decide)

/-- C4 is false as stated: the valid two-byte UTF-8 input [0xD7, 0xB2] (the
character ×, then the byte ² as a continuation byte) contains no decimal digit
at all, yet the scan opens a number lexeme on the byte 0xB2 (because
char::is_numeric accepts ²) and records an "Invalid number" diagnostic. -/
theorem C4_decimal_digit_counterexample :
    tokenize [215, 178] =
      Except.error ("[1:1] Error: Invalid token " ++ sq ++ "×" ++ sq ++ "\n" ++
        "[1:2] Error: Invalid number " ++ sq ++ "²" ++ sq)
    ∧ (([215, 178] : List Byte).all fun b => !(byteChar b).isDigit) = true
    ∧ (scanStep (extend [215, 178]) 1 (byteChar 178) initState).2.reading_number = true := by
  exact ⟨by decide, by decide, by decide⟩

/-- C5: with no lexeme open, the four comparison characters are scanned with
greedy one-character lookahead: a following = consumes both characters and
emits the two-character token, otherwise the one-character token is emitted;
"!=" scans as one BangEqual and "!!x" as two Bangs and the operand. -/
theorem C5_operator_munch :
    (∀ (src : List Byte) (co : Nat) (c : Char) (st : ScanState),
      st.reading_string = false → st.reading_number = false →
      st.reading_identifier = false → c ∈ OPERATORS →
      ((co + 1 < src.length ∧ byteChar (src.getD (co + 1) 0) = '=') →
        ∃ t, twoCharOp c = some t ∧
          scanStep src co c st = (co + 2, { st with tokens := st.tokens ++ [t] }))
      ∧ (¬ (co + 1 < src.length ∧ byteChar (src.getD (co + 1) 0) = '=') →
        ∃ t, oneCharOp c = some t ∧
          scanStep src co c st = (co + 1, { st with tokens := st.tokens ++ [t] })))
    ∧ tokenize [33, 61] = Except.ok [Token.BangEqual, Token.Eof]
    ∧ tokenize [33, 33, 120] =
        Except.ok [Token.Bang, Token.Bang, Token.Identifier "x", Token.Eof] := by
  refine ⟨?_, by decide, by decide⟩
  intro src co c st hs hn hi hop
  rw [scanStep_idle src co c st hs hn hi]
  simp only [OPERATORS, List.mem_cons, List.not_mem_nil, or_false] at hop
  rcases hop with rfl | rfl | rfl | rfl <;>
    rw [idleStep_op src co _ st (by decide) (by decide) (by decide) (by decide)
      (by decide) (by decide) (by decide) (by decide) (by decide) (by decide)
      (by decide) (by decide) (by decide) (by decide) (by decide)] <;>
    exact ⟨fun hcond => by rw [if_pos hcond]; exact ⟨_, rfl, rfl⟩,
      fun hcond => by rw [if_neg hcond]; exact ⟨_, rfl, rfl⟩⟩

/-- C5 witness: at "!=" the scanner consumes both characters and emits the
two-character not-equal token. -/
theorem C5_operator_munch_witness :
    ∃ t, twoCharOp (byteChar 33) = some t ∧
      scanStep [(33 : Byte), 61, 32] 0 (byteChar 33) initState =
        (2, { initState with tokens := initState.tokens ++ [t] }) :=
  (C5_operator_munch.1 [33, 61, 32] 0 (byteChar 33) initState rfl rfl rfl
    (by decide)).1 (by decide)

/-- C6: inside an open string a backslash sets the escape flag and is not
stored, the escaped character — whatever it is — is appended literally (no
control-code interpretation), an unescaped double quote closes the string and
emits the token with the accumulated contents, and any other character is
appended; "a\nb" in a string decodes to anb, and an escaped quote to a quote. -/
theorem C6_string_escapes :
    (∀ (src : List Byte) (co : Nat) (c : Char) (st : ScanState),
      st.reading_string = true → st.escape_next = true →
      scanStep src co c st =
        (co + 1, { st with string_buf := st.string_buf ++ [c], escape_next := false }))
    ∧ (∀ (src : List Byte) (co : Nat) (st : ScanState),
      st.reading_string = true → st.escape_next = false →
      scanStep src co '\\' st = (co + 1, { st with escape_next := true }))
    ∧ (∀ (src : List Byte) (co : Nat) (st : ScanState),
      st.reading_string = true → st.escape_next = false →
      scanStep src co '"' st =
        (co + 1, { st with
          reading_string := false
          string_buf := []
          tokens := st.tokens ++ [Token.String (String.mk st.string_buf)] }))
    ∧ (∀ (src : List Byte) (co : Nat) (c : Char) (st : ScanState),
      st.reading_string = true → st.escape_next = false → c ≠ '"' → c ≠ '\\' →
      scanStep src co c st = (co + 1, { st with string_buf := st.string_buf ++ [c] }))
    ∧ tokenize [34, 97, 92, 110, 98, 34] =
        Except.ok [Token.String "anb", Token.Eof]
    ∧ tokenize [34, 92, 34, 34] = Except.ok [Token.String "\"", Token.Eof] := by
  refine ⟨?_, ?_, ?_, ?_, by decide, by decide⟩
  · intro src co c st hs he
    unfold scanStep
    rw [if_pos hs, if_pos he]
  · intro src co st hs he
    unfold scanStep
    rw [if_pos hs, if_neg (by simp [he]), if_neg (by decide), if_pos rfl]
  · intro src co st hs he
    unfold scanStep
    rw [if_pos hs, if_neg (by simp [he]), if_pos rfl]
  · intro src co c st hs he hq hb
    unfold scanStep
    rw [if_pos hs, if_neg (by simp [he]), if_neg hq, if_neg hb]

/-- C6 witness: with an escape pending, the next character (here n) is
appended literally and the flag clears. -/
theorem C6_string_escapes_witness :
    scanStep [(34 : Byte), 110, 32] 1 (byteChar 110)
        ⟨[], [], true, false, false, 0, true, []⟩ =
      (2, ⟨[], [], true, false, false, 0, false, [byteChar 110]⟩) :=
  C6_string_escapes.1 [34, 110, 32] 1 (byteChar 110)
    ⟨[], [], true, false, false, 0, true, []⟩ rfl rfl

/-- C7: with no lexeme open, a slash followed by another slash skips every
character up to (not including) the next newline or end of input, producing no
tokens and no diagnostics; a slash not followed by a slash emits one Slash
token. -/
theorem C7_comments :
    (∀ (src : List Byte) (co : Nat) (st : ScanState),
      st.reading_string = false → st.reading_number = false →
      st.reading_identifier = false →
      ((co + 1 < src.length ∧ byteChar (src.getD (co + 1) 0) = '/') →
        scanStep src co '/' st = (skipToNewline src (co + 1), st))
      ∧ (¬ (co + 1 < src.length ∧ byteChar (src.getD (co + 1) 0) = '/') →
        scanStep src co '/' st = (co + 1, { st with tokens := st.tokens ++ [Token.Slash] })))
    ∧ (∀ (src : List Byte) (o : Nat), o ≤ src.length →
        o ≤ skipToNewline src o ∧ skipToNewline src o ≤ src.length ∧
        (∀ k : Nat, o ≤ k → k < skipToNewline src o → byteChar (src.getD k 0) ≠ '\n') ∧
        (skipToNewline src o = src.length ∨
          byteChar (src.getD (skipToNewline src o) 0) = '\n'))
    ∧ tokenize [47, 47, 64, 10, 59] = Except.ok [Token.Semicolon, Token.Eof]
    ∧ tokenize [47, 49] = Except.ok [Token.Slash, Token.Number 1, Token.Eof] := by
  refine ⟨?_, ?_, by decide, by decide⟩
  · intro src co st hs hn hi
    rw [scanStep_idle src co _ st hs hn hi, idleStep_slash src co st]
    exact ⟨fun hcond => by rw [if_pos hcond], fun hcond => by rw [if_neg hcond]⟩
  · intro src o ho
    exact ⟨skipToNewline_ge src o, skipToNewline_le src o ho,
      fun k hk1 hk2 => skipToNewline_between src o k hk1 hk2,
      skipToNewline_end src o ho⟩

/-- C7 witness: at "//@" the comment branch jumps the cursor to the
end-of-line position and changes nothing else. -/
theorem C7_comments_witness :
    scanStep [(47 : Byte), 47, 64, 32] 0 '/' initState =
      (skipToNewline [(47 : Byte), 47, 64, 32] 1, initState) :=
  (C7_comments.1 [47, 47, 64, 32] 0 initState rfl rfl rfl).1 (by decide)

/-- C8: an accumulated identifier whose text equals one of the 16 reserved
spellings is emitted as the corresponding keyword token, any other text as a
generic identifier token carrying exactly that text; closing an identifier
pushes precisely the keyword-table lookup of the accumulated characters and
re-examines the closing character by the idle rules. -/
theorem C8_keyword_partition :
    (keyword_token "and" = Token.And ∧ keyword_token "class" = Token.Class ∧
      keyword_token "else" = Token.Else ∧ keyword_token "false" = Token.False ∧
      keyword_token "fun" = Token.Fun ∧ keyword_token "for" = Token.For ∧
      keyword_token "if" = Token.If ∧ keyword_token "nil" = Token.Nil ∧
      keyword_token "or" = Token.Or ∧ keyword_token "print" = Token.Print ∧
      keyword_token "return" = Token.Return ∧ keyword_token "super" = Token.Super ∧
      keyword_token "this" = Token.This ∧ keyword_token "true" = Token.True ∧
      keyword_token "var" = Token.Var ∧ keyword_token "while" = Token.While)
    ∧ (∀ s : String,
        s ∉ (["and", "class", "else", "false", "fun", "for", "if", "nil", "or",
          "print", "return", "super", "this", "true", "var", "while"] : List String) →
        keyword_token s = Token.Identifier s)
    ∧ (∀ (src : List Byte) (co : Nat) (c : Char) (st : ScanState),
        st.reading_string = false → st.reading_number = false →
        st.reading_identifier = true → char_is_alphanumeric c = false →
        scanStep src co c st =
          idleStep src co c { st with
            reading_identifier := false
            string_buf := []
            tokens := st.tokens ++ [keyword_token (String.mk st.string_buf)] })
    ∧ tokenize [118, 97, 114, 32, 120] =
        Except.ok [Token.Var, Token.Identifier "x", Token.Eof] := by
  refine ⟨⟨rfl, rfl, rfl, rfl, rfl, rfl, rfl, rfl, rfl, rfl, rfl, rfl, rfl, rfl, rfl,
    rfl⟩, ?_, ?_, by decide⟩
  · intro s hs
    unfold keyword_token
    split <;> simp_all
  · intro src co c st hs hn hi hc
    unfold scanStep identStep
    rw [if_neg (by simp [hs]), if_neg (by simp [hn]), if_neg (by simp [hn]),
      if_neg (by simp [hi, hc]), if_pos hi]
    rfl

/-- C8 witness: closing the accumulated identifier var emits the Var keyword
token via the keyword table and re-dispatches the closing blank. -/
theorem C8_keyword_partition_witness :
    scanStep [(32 : Byte)] 0 (byteChar 32)
        ⟨[], [], false, false, true, 0, false, ['v', 'a', 'r']⟩ =
      idleStep [(32 : Byte)] 0 (byteChar 32)
        ⟨[] ++ [keyword_token (String.mk ['v', 'a', 'r'])], [], false, false, false, 0,
          false, []⟩ :=
  C8_keyword_partition.2.2.1 [32] 0 (byteChar 32)
    ⟨[], [], false, false, true, 0, false, ['v', 'a', 'r']⟩ rfl rfl rfl (by decide)

/-- C10: whenever the input ends with a string lexeme still open, the sentinel
blank is consumed by the open-string rule, so the accumulated contents end in
one space that is not part of the source, and the call fails with the
"Unterminated string" diagnostic (anchored at the string start) reporting
those contents, appended after the earlier diagnostics. -/
theorem C10_unterminated_sentinel :
    ∀ source : List Byte, (finalLoopState source).reading_string = true →
      (∃ b, (finalLoopState source).string_buf = b ++ [' ']) ∧
      tokenize source = Except.error (String.intercalate "\n"
        ((finalLoopState source).errors ++
          [generate_report (extend source)
            ("Unterminated string " ++ String.mk ((finalLoopState source).string_buf))
            ((finalLoopState source).read_start_offset)])) := by
  intro source hread
  constructor
  · exact scanLoop_string_inv (extend source) (extend_last source)
      ((extend source).length + 1) 0 initState (by omega)
      (fun h => by simp [initState] at h) hread
  · have herr : (finalState source).errors =
        (finalLoopState source).errors ++
          [generate_report (extend source)
            ("Unterminated string " ++ String.mk ((finalLoopState source).string_buf))
            ((finalLoopState source).read_start_offset)] := by
      unfold finalState
      rw [if_pos hread]
    have ht : tokenize source
        = Except.error (String.intercalate "\n" (finalState source).errors) := by
      unfold tokenize
      rw [if_pos (by rw [herr]; simp)]
    rw [ht, herr]

/-- C10 witness: the one-byte input consisting of a lone opening quote ends
with the string open; the buffer ends in the sentinel space and the call
fails with the unterminated-string diagnostic. -/
theorem C10_unterminated_sentinel_witness :
    (∃ b, (finalLoopState [34]).string_buf = b ++ [' ']) ∧
      tokenize [34] = Except.error (String.intercalate "\n"
        ((finalLoopState [34]).errors ++
          [generate_report (extend [34])
            ("Unterminated string " ++ String.mk ((finalLoopState [34]).string_buf))
            ((finalLoopState [34]).read_start_offset)])) :=
  C10_unterminated_sentinel [34] (by decide)

end Lox
